import Mathlib

/-!
# TicTacToe: board and game controller of `src/script.js`

A shallow embedding of the two logic modules of `script.js`.

* Cells are JavaScript strings: `""` is an empty cell, every other string is a mark.
* A board is the JavaScript array `board`, embedded as a `List String`. An array read
  `board[i]` is `board[i]?`, where `none` stands for `undefined`.
* The closure variables `board`, `currentPlayer` and `isGameOver` become the fields of
  `Session`; every operation takes the state and returns the new state next to its result.
* A function result of type `Option String` uses `none` for `null` / `undefined`.
-/

namespace TicTacToe

/-- A player object, as built by `createPlayer`. -/
structure Player where
  name : String
  symbol : String
deriving DecidableEq, Repr

/-- `createPlayer(name, symbol)`: `return { name, symbol }`. -/
def createPlayer (name symbol : String) : Player := { name := name, symbol := symbol }

/-- `const playerX = createPlayer("Giocatore 1", "X")`. -/
def playerX : Player := createPlayer "Giocatore 1" "X"

/-- `const playerO = createPlayer("Giocatore 2", "O")`. -/
def playerO : Player := createPlayer "Giocatore 2" "O"

/-- JavaScript truthiness of a value that is a string, `undefined` or `null`:
only a non-empty string is truthy. -/
def truthy : Option String → Bool
  | none => false
  | some s => s != ""

/-- The array literal `["", "", "", "", "", "", "", "", ""]`. -/
def emptyBoard : List String := ["", "", "", "", "", "", "", "", ""]

/-- `getBoard()`: `[...board]`, a fresh array with the same elements. -/
def getBoard (board : List String) : List String := board.map id

/-- `makeMove(index, playerSymbol)` for an integer `index`: the boolean result together
with the board afterwards. -/
def makeMove (board : List String) (index : Int) (playerSymbol : String) :
    Bool × List String :=
  if 0 ≤ index ∧ index < 9 ∧ board[index.toNat]? = some "" then
    (true, board.set index.toNat playerSymbol)
  else
    (false, board)

/-- `resetBoard()`: the board is replaced by a fresh empty one. -/
def resetBoard (_board : List String) : List String := emptyBoard

/-- The array `winningCombinations` of `checkWinner`, in its scan order. -/
def winningCombinations : List (Nat × Nat × Nat) :=
  [(0, 1, 2), (3, 4, 5), (6, 7, 8),
   (0, 3, 6), (1, 4, 7), (2, 5, 8),
   (0, 4, 8), (2, 4, 6)]

/-- The test of the loop body of `checkWinner`:
`board[a] && board[a] === board[b] && board[a] === board[c]`. -/
def lineWins (board : List String) (t : Nat × Nat × Nat) : Bool :=
  truthy (board[t.1]?) && (board[t.1]? == board[t.2.1]?)
    && (board[t.1]? == board[t.2.2]?)

/-- The `for ... of` loop of `checkWinner` over a list of combinations: the first
combination that passes the test returns `board[a]`; `null` when the list is exhausted. -/
def checkWinnerLoop (board : List String) : List (Nat × Nat × Nat) → Option String
  | [] => none
  | t :: rest => if lineWins board t then board[t.1]? else checkWinnerLoop board rest

/-- `checkWinner()` on the current board. -/
def checkWinner (board : List String) : Option String :=
  checkWinnerLoop (getBoard board) winningCombinations

/-- `checkTie()`: `board.every(cell => cell !== "") && !checkWinner()`. -/
def checkTie (board : List String) : Bool :=
  (getBoard board).all (fun cell => cell != "") && !(truthy (checkWinner board))

/-- The state held by the two module closures. -/
structure Session where
  board : List String
  currentPlayer : Player
  isGameOver : Bool
deriving DecidableEq, Repr

/-- The state right after the script has been loaded. -/
def initialSession : Session :=
  { board := emptyBoard, currentPlayer := playerX, isGameOver := false }

/-- `switchPlayer()`: `currentPlayer = currentPlayer === playerX ? playerO : playerX`. -/
def switchPlayer (s : Session) : Session :=
  { s with currentPlayer := if s.currentPlayer = playerX then playerO else playerX }

/-- `getCurrentPlayer()`. -/
def getCurrentPlayer (s : Session) : Player := s.currentPlayer

/-- `playRound(index)` for an integer `index`: the returned value (`none` is the bare
`return`, that is `undefined`) together with the state afterwards. -/
def playRound (s : Session) (index : Int) : Option String × Session :=
  if s.isGameOver then (none, s)
  else
    let r := makeMove s.board index s.currentPlayer.symbol
    if r.1 then
      let s1 : Session := { s with board := r.2 }
      let winner := checkWinner s1.board
      if truthy winner then
        (some "win", { s1 with isGameOver := true })
      else if checkTie s1.board then
        (some "tie", { s1 with isGameOver := true })
      else
        (some "continue", switchPlayer s1)
    else
      (some "invalid", { s with board := r.2 })

/-- `resetGame()`. -/
def resetGame (s : Session) : Session :=
  { board := resetBoard s.board, currentPlayer := playerX, isGameOver := false }

/-- A call a client can make on the game controller. -/
inductive Call where
  | playRound (index : Int)
  | resetGame
deriving DecidableEq, Repr

/-- The state after one call. -/
def step (s : Session) : Call → Session
  | Call.playRound index => (playRound s index).2
  | Call.resetGame => resetGame s

/-- The state after a finite sequence of calls, made from left to right. -/
def run (s : Session) (calls : List Call) : Session := calls.foldl step s

/-- The values returned by successive `playRound` calls, in call order, together with
the state after the last one. -/
def playRounds (s : Session) : List Int → List (Option String) × Session
  | [] => ([], s)
  | index :: rest =>
    ((playRound s index).1 :: (playRounds (playRound s index).2 rest).1,
      (playRounds (playRound s index).2 rest).2)

/-- The board after successive `makeMove(index, playerSymbol)` calls, in call order, their
boolean results being dropped. -/
def makeMoves (board : List String) : List (Int × String) → List String
  | [] => board
  | c :: rest => makeMoves (makeMove board c.1 c.2).2 rest

/-! ### Array identity

`getBoard` hands an array to its caller, who may write to it. To tell a copy from the
array itself, arrays are objects of a store, referred to by address. -/

/-- The array objects that exist, by address, and the address held by the closure
variable `board` of `gameBoard`. -/
structure BoardStore where
  arrays : List (List String)
  board : Nat
deriving DecidableEq, Repr

/-- The array that the variable `board` refers to; this is what `getBoard`, `makeMove`
and, through `getBoard`, `checkWinner` read. -/
def currentBoard (h : BoardStore) : Option (List String) := h.arrays[h.board]?

/-- `getBoard()` in the store: `[...board]` creates a new array object with the elements
of `board`; the result is the address of the new object and the store that holds it. -/
def getBoardRef (h : BoardStore) : Nat × BoardStore :=
  (h.arrays.length,
    { h with arrays := h.arrays ++ [getBoard ((currentBoard h).getD [])] })

/-- A change that a client makes to the array object at address `a`, such as
`snapshot[k] = v`: the object is replaced by `change` of it, nothing else is touched. -/
def mutateArray (h : BoardStore) (a : Nat) (change : List String → List String) :
    BoardStore :=
  { h with arrays := h.arrays.set a (change (h.arrays.getD a [])) }

/-! ### The display controller -/

/-- The property names of the object that the `gameController` module returns:
`{ playRound, getCurrentPlayer, getBoard: gameBoard.getBoard, resetGame }`. -/
def gameControllerExports : List String :=
  ["playRound", "getCurrentPlayer", "getBoard", "resetGame"]

/-- A method call `gameController.name(...)` with the given outcome: calling a property
that the object does not have throws a `TypeError`. -/
def callExport {α : Type} (name : String) (outcome : α) : Except String α :=
  if name ∈ gameControllerExports then Except.ok outcome
  else Except.error ("TypeError: gameController." ++ name ++ " is not a function")

/-- `makeMove(null, playerSymbol)`: in `index >= 0 && index < 9` the value `null` counts
as the number 0; `board[null]` reads the property named `"null"`, which an array does not
have, so it is `undefined` and the test `=== ""` fails. -/
def makeMoveNull (board : List String) (_playerSymbol : String) : Bool × List String :=
  if (0 : Int) ≤ 0 ∧ (0 : Int) < 9 ∧ (none : Option String) = some "" then
    (true, board)
  else
    (false, board)

/-- `playRound(null)`, the call made by `updateDisplay`. -/
def playRoundNull (s : Session) : Option String × Session :=
  if s.isGameOver then (none, s)
  else
    let r := makeMoveNull s.board s.currentPlayer.symbol
    if r.1 then
      let s1 : Session := { s with board := r.2 }
      let winner := checkWinner s1.board
      if truthy winner then
        (some "win", { s1 with isGameOver := true })
      else if checkTie s1.board then
        (some "tie", { s1 with isGameOver := true })
      else
        (some "continue", switchPlayer s1)
    else
      (some "invalid", { s with board := r.2 })

/-- What `updateDisplay` writes to the page: the text of the cells and the message. -/
structure Display where
  cells : List String
  message : String
deriving DecidableEq, Repr

/-- `updateDisplay()`: the page content and the session state when it completes, or the
error it throws. -/
def updateDisplay (s : Session) : Except String (Display × Session) := do
  let board ← callExport "getBoard" (getBoard s.board)
  let round ← callExport "playRound" (playRoundNull s)
  let currentWinner ← callExport "checkWinner" (checkWinner round.2.board)
  let currentTie ← callExport "checkTie" (checkTie round.2.board)
  if truthy currentWinner then
    pure ({ cells := board, message := currentWinner.getD "" ++ " ha vinto!" }, round.2)
  else if currentTie then
    pure ({ cells := board, message := "È un pareggio!" }, round.2)
  else
    let p ← callExport "getCurrentPlayer" (getCurrentPlayer round.2)
    let q ← callExport "getCurrentPlayer" (getCurrentPlayer round.2)
    pure ({ cells := board,
            message := "È il turno di " ++ p.name ++ " (" ++ q.symbol ++ ")" }, round.2)

/-- The invariant of the session state: the game-over flag records exactly a win or a
tie on the board, and all full lines of the board hold one and the same mark. -/
def SessionInv (s : Session) : Prop :=
  (s.isGameOver = true ↔
      (truthy (checkWinner s.board) = true ∨ checkTie s.board = true)) ∧
  (∀ t ∈ winningCombinations, ∀ u ∈ winningCombinations,
      lineWins s.board t = true → lineWins s.board u = true →
      s.board[t.1]? = s.board[u.1]?)

/-- The turn invariant of the session state: while the game runs, X is to move when both
marks occur equally often and O is to move when X occurs once more; after the end the
counts still differ by 0 or 1. -/
def TurnInv (s : Session) : Prop :=
  (s.isGameOver = false →
      (s.currentPlayer = playerX ∧ s.board.count "X" = s.board.count "O") ∨
      (s.currentPlayer = playerO ∧ s.board.count "X" = s.board.count "O" + 1)) ∧
  (s.board.count "X" = s.board.count "O" ∨ s.board.count "X" = s.board.count "O" + 1)

/-! ## Helper lemmas -/

theorem getBoard_eq (board : List String) : getBoard board = board := by
  simp [getBoard]

theorem truthy_eq_true_iff (v : Option String) :
    truthy v = true ↔ ∃ m, m ≠ "" ∧ v = some m := by
  cases v with
  | none => simp [truthy]
  | some s => simp [truthy]

theorem lineWins_iff (board : List String) (t : Nat × Nat × Nat) :
    lineWins board t = true ↔
      ∃ m, m ≠ "" ∧ board[t.1]? = some m ∧ board[t.2.1]? = some m
        ∧ board[t.2.2]? = some m := by
  unfold lineWins
  simp only [Bool.and_eq_true, beq_iff_eq, truthy_eq_true_iff]
  constructor
  · rintro ⟨⟨⟨m, hm, h1⟩, h2⟩, h3⟩
    exact ⟨m, hm, h1, by rw [← h2, h1], by rw [← h3, h1]⟩
  · rintro ⟨m, hm, h1, h2, h3⟩
    exact ⟨⟨⟨m, hm, h1⟩, by rw [h1, h2]⟩, by rw [h1, h3]⟩

theorem lineWins_truthy {board : List String} {t : Nat × Nat × Nat}
    (h : lineWins board t = true) : truthy (board[t.1]?) = true := by
  unfold lineWins at h
  simp only [Bool.and_eq_true] at h
  exact h.1.1

theorem checkWinnerLoop_eq_none_iff (board : List String) (l : List (Nat × Nat × Nat)) :
    checkWinnerLoop board l = none ↔ ∀ t ∈ l, lineWins board t = false := by
  induction l with
  | nil => simp [checkWinnerLoop]
  | cons t rest ih =>
    by_cases h : lineWins board t = true
    · have ht := lineWins_truthy h
      obtain ⟨m, _, hm⟩ := (truthy_eq_true_iff _).1 ht
      have hne : checkWinnerLoop board (t :: rest) ≠ none := by
        simp only [checkWinnerLoop, h, if_true, hm]
        exact Option.some_ne_none m
      constructor
      · intro hc
        exact absurd hc hne
      · intro hc
        have := hc t (by simp)
        rw [h] at this
        exact absurd this (by decide)
    · simp only [Bool.not_eq_true] at h
      simp [checkWinnerLoop, h, ih]

theorem checkWinnerLoop_first (board : List String) (pre : List (Nat × Nat × Nat))
    (t : Nat × Nat × Nat) (post : List (Nat × Nat × Nat))
    (hpre : ∀ u ∈ pre, lineWins board u = false) (ht : lineWins board t = true) :
    checkWinnerLoop board (pre ++ t :: post) = board[t.1]? := by
  induction pre with
  | nil => simp [checkWinnerLoop, ht]
  | cons u rest ih =>
    have hu : lineWins board u = false := hpre u (by simp)
    have hrest : ∀ v ∈ rest, lineWins board v = false := fun v hv => hpre v (by simp [hv])
    simp [checkWinnerLoop, hu, ih hrest]

theorem checkWinnerLoop_truthy_or_none (board : List String) (l : List (Nat × Nat × Nat)) :
    checkWinnerLoop board l = none ∨ truthy (checkWinnerLoop board l) = true := by
  induction l with
  | nil => simp [checkWinnerLoop]
  | cons t rest ih =>
    by_cases h : lineWins board t = true
    · right
      simp only [checkWinnerLoop, h, if_true]
      exact lineWins_truthy h
    · simp only [Bool.not_eq_true] at h
      simpa [checkWinnerLoop, h] using ih

theorem checkWinner_truthy_iff (board : List String) :
    truthy (checkWinner board) = true ↔ ∃ t ∈ winningCombinations, lineWins board t = true := by
  unfold checkWinner
  rw [getBoard_eq]
  constructor
  · intro h
    by_contra hc
    have hnone : checkWinnerLoop board winningCombinations = none := by
      rw [checkWinnerLoop_eq_none_iff]
      intro t ht
      cases hl : lineWins board t with
      | false => rfl
      | true => exact absurd ⟨t, ht, hl⟩ hc
    rw [hnone] at h
    exact Bool.false_ne_true h
  · rintro ⟨t, ht, hl⟩
    rcases checkWinnerLoop_truthy_or_none board winningCombinations with h | h
    · rw [checkWinnerLoop_eq_none_iff] at h
      rw [h t ht] at hl
      exact absurd hl Bool.false_ne_true
    · exact h

theorem all_nonempty_iff (board : List String) (hlen : board.length = 9) :
    board.all (fun cell => cell != "") = true ↔
      ∀ i : Nat, i < 9 → ∃ m, m ≠ "" ∧ board[i]? = some m := by
  rw [List.all_eq_true]
  constructor
  · intro h i hi
    have hi2 : i < board.length := by omega
    refine ⟨board[i], ?_, List.getElem?_eq_getElem hi2⟩
    have := h board[i] (List.getElem_mem hi2)
    simpa using this
  · intro h c hc
    obtain ⟨i, hi, hci⟩ := List.getElem_of_mem hc
    obtain ⟨m, hm, hmi⟩ := h i (by omega)
    rw [List.getElem?_eq_getElem hi, hci] at hmi
    have : c = m := Option.some.inj hmi
    subst this
    simpa using hm

theorem makeMove_length (board : List String) (index : Int) (sym : String) :
    (makeMove board index sym).2.length = board.length := by
  unfold makeMove
  split <;> simp

theorem truthy_checkWinner_false_iff (board : List String) :
    truthy (checkWinner board) = false ↔
      ∀ t ∈ winningCombinations, ¬ ∃ m, m ≠ "" ∧ board[t.1]? = some m ∧
        board[t.2.1]? = some m ∧ board[t.2.2]? = some m := by
  constructor
  · intro h t ht hex
    have h2 := (checkWinner_truthy_iff board).2 ⟨t, ht, (lineWins_iff board t).2 hex⟩
    rw [h] at h2
    exact Bool.false_ne_true h2
  · intro h
    cases htr : truthy (checkWinner board) with
    | false => rfl
    | true =>
      obtain ⟨t, ht, hl⟩ := (checkWinner_truthy_iff board).1 htr
      exact absurd ((lineWins_iff board t).1 hl) (h t ht)

theorem makeMove_rejected_board {board : List String} {index : Int} {sym : String}
    (h : (makeMove board index sym).1 = false) : (makeMove board index sym).2 = board := by
  unfold makeMove at h ⊢
  split
  · rename_i hc
    rw [if_pos hc] at h
    simp at h
  · rfl

/-! ### The five exits of `playRound` -/

theorem playRound_over (s : Session) (index : Int) (hover : s.isGameOver = true) :
    playRound s index = (none, s) := by
  simp [playRound, hover]

theorem playRound_rejected (s : Session) (index : Int) (hover : s.isGameOver = false)
    (hm : (makeMove s.board index s.currentPlayer.symbol).1 = false) :
    playRound s index = (some "invalid", s) := by
  have hb := makeMove_rejected_board hm
  cases s
  simp_all [playRound]

theorem playRound_win (s : Session) (index : Int) (hover : s.isGameOver = false)
    (hm : (makeMove s.board index s.currentPlayer.symbol).1 = true)
    (hw : truthy (checkWinner (makeMove s.board index s.currentPlayer.symbol).2) = true) :
    playRound s index = (some "win",
      { board := (makeMove s.board index s.currentPlayer.symbol).2,
        currentPlayer := s.currentPlayer, isGameOver := true }) := by
  simp [playRound, hover, hm, hw]

theorem playRound_tie (s : Session) (index : Int) (hover : s.isGameOver = false)
    (hm : (makeMove s.board index s.currentPlayer.symbol).1 = true)
    (hw : truthy (checkWinner (makeMove s.board index s.currentPlayer.symbol).2) = false)
    (ht : checkTie (makeMove s.board index s.currentPlayer.symbol).2 = true) :
    playRound s index = (some "tie",
      { board := (makeMove s.board index s.currentPlayer.symbol).2,
        currentPlayer := s.currentPlayer, isGameOver := true }) := by
  simp [playRound, hover, hm, hw, ht]

theorem playRound_continue (s : Session) (index : Int) (hover : s.isGameOver = false)
    (hm : (makeMove s.board index s.currentPlayer.symbol).1 = true)
    (hw : truthy (checkWinner (makeMove s.board index s.currentPlayer.symbol).2) = false)
    (ht : checkTie (makeMove s.board index s.currentPlayer.symbol).2 = false) :
    playRound s index = (some "continue",
      { board := (makeMove s.board index s.currentPlayer.symbol).2,
        currentPlayer := if s.currentPlayer = playerX then playerO else playerX,
        isGameOver := false }) := by
  simp [playRound, hover, hm, hw, ht, switchPlayer]

/-! ### Reachable states -/

theorem checkWinnerLoop_cases (board : List String) (l : List (Nat × Nat × Nat)) :
    (checkWinnerLoop board l = none ∧ ∀ t ∈ l, lineWins board t = false) ∨
      ∃ t ∈ l, lineWins board t = true ∧ checkWinnerLoop board l = board[t.1]? := by
  induction l with
  | nil => left; simp [checkWinnerLoop]
  | cons t rest ih =>
    cases h : lineWins board t with
    | true =>
      right
      exact ⟨t, by simp, h, by simp [checkWinnerLoop, h]⟩
    | false =>
      rcases ih with ⟨hn, hall⟩ | ⟨u, hu, hw, he⟩
      · left
        refine ⟨by simp [checkWinnerLoop, h, hn], ?_⟩
        intro v hv
        rcases List.mem_cons.1 hv with hv | hv
        · rw [hv]; exact h
        · exact hall v hv
      · right
        exact ⟨u, by simp [hu], hw, by simp [checkWinnerLoop, h, he]⟩

theorem makeMove_accepted {board : List String} {index : Int} {sym : String}
    (h : (makeMove board index sym).1 = true) :
    ∃ n : Nat, n < board.length ∧ (makeMove board index sym).2 = board.set n sym := by
  unfold makeMove at h ⊢
  split
  · rename_i hc
    refine ⟨index.toNat, ?_, rfl⟩
    by_contra hlt
    have := hc.2.2
    rw [List.getElem?_eq_none (by omega)] at this
    exact Option.noConfusion this
  · rename_i hc
    rw [if_neg hc] at h
    simp at h

theorem lineWins_set {board : List String} {n : Nat} {sym : String}
    {t : Nat × Nat × Nat} (hn : n < board.length)
    (h : lineWins (board.set n sym) t = true) :
    lineWins board t = true ∨ (board.set n sym)[t.1]? = some sym := by
  have hset : (board.set n sym)[n]? = some sym := by simp [List.getElem?_set, hn]
  by_cases h1 : t.1 = n
  · right; rw [h1]; exact hset
  by_cases h2 : t.2.1 = n
  · right
    obtain ⟨m, _, e1, e2, _⟩ := (lineWins_iff _ t).1 h
    rw [e1, ← e2, h2]; exact hset
  by_cases h3 : t.2.2 = n
  · right
    obtain ⟨m, _, e1, _, e3⟩ := (lineWins_iff _ t).1 h
    rw [e1, ← e3, h3]; exact hset
  left
  have g1 : (board.set n sym)[t.1]? = board[t.1]? := by
    simp [List.getElem?_set, Ne.symm h1]
  have g2 : (board.set n sym)[t.2.1]? = board[t.2.1]? := by
    simp [List.getElem?_set, Ne.symm h2]
  have g3 : (board.set n sym)[t.2.2]? = board[t.2.2]? := by
    simp [List.getElem?_set, Ne.symm h3]
  unfold lineWins at h ⊢
  rw [g1, g2, g3] at h
  exact h

theorem sessionInv_of_no_line {s : Session}
    (hflag : s.isGameOver = true ↔
      (truthy (checkWinner s.board) = true ∨ checkTie s.board = true))
    (hw : truthy (checkWinner s.board) = false) : SessionInv s := by
  refine ⟨hflag, ?_⟩
  intro t ht u _ hlt _
  have := (checkWinner_truthy_iff s.board).2 ⟨t, ht, hlt⟩
  rw [hw] at this
  exact absurd this (by decide)

theorem sessionInv_initial : SessionInv initialSession :=
  sessionInv_of_no_line (by decide) (by decide)

theorem sessionInv_playRound {s : Session} (index : Int) (h : SessionInv s) :
    SessionInv (playRound s index).2 := by
  cases hover : s.isGameOver with
  | true => rw [playRound_over s index hover]; exact h
  | false =>
    cases hm : (makeMove s.board index s.currentPlayer.symbol).1 with
    | false => rw [playRound_rejected s index hover hm]; exact h
    | true =>
      cases hw : truthy (checkWinner (makeMove s.board index s.currentPlayer.symbol).2) with
      | true =>
        rw [playRound_win s index hover hm hw]
        refine ⟨by simp [hw], ?_⟩
        have hbefore : truthy (checkWinner s.board) = false := by
          cases hb : truthy (checkWinner s.board) with
          | false => rfl
          | true =>
            have := h.1.2 (Or.inl hb)
            rw [hover] at this
            exact absurd this (by decide)
        obtain ⟨n, hn, hset⟩ := makeMove_accepted hm
        have key : ∀ t ∈ winningCombinations,
            lineWins (s.board.set n s.currentPlayer.symbol) t = true →
            (s.board.set n s.currentPlayer.symbol)[t.1]? = some s.currentPlayer.symbol := by
          intro t ht hl
          rcases lineWins_set hn hl with hold | hnew
          · have := (checkWinner_truthy_iff s.board).2 ⟨t, ht, hold⟩
            rw [hbefore] at this
            exact absurd this (by decide)
          · exact hnew
        intro t ht u hu hlt hlu
        simp only [hset] at hlt hlu ⊢
        rw [key t ht hlt, key u hu hlu]
      | false =>
        cases htie : checkTie (makeMove s.board index s.currentPlayer.symbol).2 with
        | true =>
          rw [playRound_tie s index hover hm hw htie]
          exact sessionInv_of_no_line (by simp [htie]) hw
        | false =>
          rw [playRound_continue s index hover hm hw htie]
          exact sessionInv_of_no_line (by simp [hw, htie]) hw

theorem sessionInv_step {s : Session} (c : Call) (h : SessionInv s) :
    SessionInv (step s c) := by
  cases c with
  | playRound index => exact sessionInv_playRound index h
  | resetGame => exact sessionInv_initial

theorem sessionInv_run (calls : List Call) :
    ∀ s : Session, SessionInv s → SessionInv (run s calls) := by
  induction calls with
  | nil => intro s h; exact h
  | cons c rest ih =>
    intro s h
    exact ih (step s c) (sessionInv_step c h)

/-! ### Frame lemmas -/

theorem makeMove_accepted_empty {board : List String} {index : Int} {sym : String}
    (h : (makeMove board index sym).1 = true) :
    ∃ n : Nat, n < board.length ∧ board[n]? = some "" ∧
      (makeMove board index sym).2 = board.set n sym := by
  unfold makeMove at h ⊢
  split
  · rename_i hc
    refine ⟨index.toNat, ?_, hc.2.2, rfl⟩
    by_contra hlt
    have := hc.2.2
    rw [List.getElem?_eq_none (by omega)] at this
    exact Option.noConfusion this
  · rename_i hc
    rw [if_neg hc] at h
    simp at h

theorem makeMove_spec_aux (board : List String) (index : Int) (sym : String) :
    ((makeMove board index sym).1 = true →
        (makeMove board index sym).2[index.toNat]? = some sym ∧
        ∀ j : Nat, j ≠ index.toNat → (makeMove board index sym).2[j]? = board[j]?) := by
  intro h
  unfold makeMove at h ⊢
  split
  · rename_i hc
    have hlt : index.toNat < board.length := by
      by_contra hlt
      have := hc.2.2
      rw [List.getElem?_eq_none (by omega)] at this
      exact Option.noConfusion this
    constructor
    · simp [List.getElem?_set, hlt]
    · intro j hj
      simp [List.getElem?_set, Ne.symm hj]
  · rename_i hc
    rw [if_neg hc] at h
    simp at h

theorem playRound_board (s : Session) (index : Int) :
    (playRound s index).2.board = s.board ∨
      (playRound s index).2.board = (makeMove s.board index s.currentPlayer.symbol).2 := by
  cases hover : s.isGameOver with
  | true => left; rw [playRound_over s index hover]
  | false =>
    cases hm : (makeMove s.board index s.currentPlayer.symbol).1 with
    | false => left; rw [playRound_rejected s index hover hm]
    | true =>
      right
      cases hw : truthy (checkWinner (makeMove s.board index s.currentPlayer.symbol).2) with
      | true => rw [playRound_win s index hover hm hw]
      | false =>
        cases ht : checkTie (makeMove s.board index s.currentPlayer.symbol).2 with
        | true => rw [playRound_tie s index hover hm hw ht]
        | false => rw [playRound_continue s index hover hm hw ht]

theorem playRound_board_same_cases (s : Session) (index : Int)
    (hover : s.isGameOver = false)
    (hm : (makeMove s.board index s.currentPlayer.symbol).1 = true) :
    (playRound s index).2.board = (makeMove s.board index s.currentPlayer.symbol).2 := by
  cases hw : truthy (checkWinner (makeMove s.board index s.currentPlayer.symbol).2) with
  | true => rw [playRound_win s index hover hm hw]
  | false =>
    cases ht : checkTie (makeMove s.board index s.currentPlayer.symbol).2 with
    | true => rw [playRound_tie s index hover hm hw ht]
    | false => rw [playRound_continue s index hover hm hw ht]

theorem makeMoves_keeps (calls : List (Int × String)) :
    ∀ (board : List String) (j : Nat) (m : String), m ≠ "" → board[j]? = some m →
      (makeMoves board calls)[j]? = some m := by
  induction calls with
  | nil => intro board j m _ h; exact h
  | cons c rest ih =>
    intro board j m hm h
    apply ih _ j m hm
    cases hr : (makeMove board c.1 c.2).1 with
    | false => rw [makeMove_rejected_board hr]; exact h
    | true =>
      obtain ⟨n, _, hempty, hset⟩ := makeMove_accepted_empty hr
      rw [hset]
      have hne : n ≠ j := by
        intro e
        rw [e, h] at hempty
        exact hm (Option.some.inj hempty)
      simp [List.getElem?_set, hne, h]

/-! ### Winning moves and turn order -/

theorem winning_line_mark {s : Session} (index : Int) (h : SessionInv s)
    (hover : s.isGameOver = false) (t : Nat × Nat × Nat) (ht : t ∈ winningCombinations)
    (hl : lineWins (makeMove s.board index s.currentPlayer.symbol).2 t = true) :
    (makeMove s.board index s.currentPlayer.symbol).2[t.1]? = some s.currentPlayer.symbol := by
  have hbefore : truthy (checkWinner s.board) = false := by
    cases hb : truthy (checkWinner s.board) with
    | false => rfl
    | true =>
      have := h.1.2 (Or.inl hb)
      rw [hover] at this
      exact absurd this (by decide)
  have hold_absurd : lineWins s.board t = true → False := by
    intro hold
    have := (checkWinner_truthy_iff s.board).2 ⟨t, ht, hold⟩
    rw [hbefore] at this
    exact absurd this (by decide)
  cases hm : (makeMove s.board index s.currentPlayer.symbol).1 with
  | false =>
    rw [makeMove_rejected_board hm] at hl
    exact (hold_absurd hl).elim
  | true =>
    obtain ⟨n, hn, hset⟩ := makeMove_accepted hm
    rw [hset] at hl ⊢
    rcases lineWins_set hn hl with hold | hnew
    · exact (hold_absurd hold).elim
    · exact hnew

theorem count_set_empty {board : List String} {n : Nat} {sym c : String}
    (hn : n < board.length) (he : board[n]? = some "") (hc : c ≠ "") :
    (board.set n sym).count c = board.count c + (if sym = c then 1 else 0) := by
  rw [List.count_set sym c board n hn]
  have hget : board[n] = "" := by
    rw [List.getElem?_eq_getElem hn] at he
    exact Option.some.inj he
  have hbeq : (board[n] == c) = false := by
    rw [hget]
    exact beq_false_of_ne (Ne.symm hc)
  rw [hbeq]
  by_cases hs : sym = c
  · simp [hs]
  · simp [hs]

theorem turnInv_initial : TurnInv initialSession := by
  refine ⟨fun _ => Or.inl ⟨rfl, by decide⟩, Or.inl (by decide)⟩

theorem turnInv_playRound {s : Session} (index : Int) (h : TurnInv s) :
    TurnInv (playRound s index).2 := by
  cases hover : s.isGameOver with
  | true => rw [playRound_over s index hover]; exact h
  | false =>
    cases hm : (makeMove s.board index s.currentPlayer.symbol).1 with
    | false => rw [playRound_rejected s index hover hm]; exact h
    | true =>
      obtain ⟨n, hn, hempty, hset⟩ := makeMove_accepted_empty hm
      have hX := @count_set_empty s.board n s.currentPlayer.symbol "X" hn hempty (by decide)
      have hO := @count_set_empty s.board n s.currentPlayer.symbol "O" hn hempty (by decide)
      have hcounts :
          (s.currentPlayer = playerX ∧
            (s.board.set n s.currentPlayer.symbol).count "X" =
              (s.board.set n s.currentPlayer.symbol).count "O" + 1) ∨
          (s.currentPlayer = playerO ∧
            (s.board.set n s.currentPlayer.symbol).count "X" =
              (s.board.set n s.currentPlayer.symbol).count "O") := by
        rcases h.1 hover with ⟨hp, hc⟩ | ⟨hp, hc⟩
        · left
          refine ⟨hp, ?_⟩
          rw [hp] at hX hO
          have e1 : (playerX.symbol = "X") := rfl
          have e2 : ¬ (playerX.symbol = "O") := by decide
          rw [hp, hX, hO, if_pos e1, if_neg e2, hc]
        · right
          refine ⟨hp, ?_⟩
          rw [hp] at hX hO
          have e1 : ¬ (playerO.symbol = "X") := by decide
          have e2 : (playerO.symbol = "O") := rfl
          rw [hp, hX, hO, if_neg e1, if_pos e2, hc]
      have hdiff :
          (s.board.set n s.currentPlayer.symbol).count "X" =
              (s.board.set n s.currentPlayer.symbol).count "O" ∨
          (s.board.set n s.currentPlayer.symbol).count "X" =
              (s.board.set n s.currentPlayer.symbol).count "O" + 1 := by
        rcases hcounts with ⟨_, hc⟩ | ⟨_, hc⟩
        · exact Or.inr hc
        · exact Or.inl hc
      cases hw : truthy (checkWinner (makeMove s.board index s.currentPlayer.symbol).2) with
      | true =>
        rw [playRound_win s index hover hm hw, hset]
        exact ⟨fun hc => absurd hc (by simp), hdiff⟩
      | false =>
        cases htie : checkTie (makeMove s.board index s.currentPlayer.symbol).2 with
        | true =>
          rw [playRound_tie s index hover hm hw htie, hset]
          exact ⟨fun hc => absurd hc (by simp), hdiff⟩
        | false =>
          rw [playRound_continue s index hover hm hw htie, hset]
          refine ⟨fun _ => ?_, hdiff⟩
          rcases hcounts with ⟨hp, hc⟩ | ⟨hp, hc⟩
          · right
            exact ⟨by simp only [hp, if_true], hc⟩
          · left
            refine ⟨?_, hc⟩
            have hne : ¬ (playerO = playerX) := by decide
            simp only [hp, if_neg hne]

theorem turnInv_run (calls : List Call) :
    ∀ s : Session, TurnInv s → TurnInv (run s calls) := by
  induction calls with
  | nil => intro s h; exact h
  | cons c rest ih =>
    intro s h
    apply ih (step s c)
    cases c with
    | playRound index => exact turnInv_playRound index h
    | resetGame => exact turnInv_initial

/-! ### Games that fill the board -/

theorem playRounds_over (indices : List Int) :
    ∀ s : Session, s.isGameOver = true → (playRounds s indices).2 = s := by
  induction indices with
  | nil => intro s _; rfl
  | cons i rest ih =>
    intro s hover
    simp only [playRounds]
    rw [playRound_over s i hover]
    exact ih s hover

theorem switched_symbol_ne (p : Player) :
    (if p = playerX then playerO else playerX).symbol ≠ "" := by
  split <;> decide

theorem playRounds_fill (indices : List Int) :
    ∀ s : Session, s.isGameOver = false → s.currentPlayer.symbol ≠ "" →
      s.board.length = 9 → indices.Nodup →
      (∀ i ∈ indices, 0 ≤ i ∧ i < 9 ∧ s.board[i.toNat]? = some "") →
      (∀ j : Nat, j < 9 → s.board[j]? = some "" → (j : Int) ∈ indices) →
      truthy (checkWinner (playRounds s indices).2.board) = false →
      indices ≠ [] →
      (playRounds s indices).1 =
        List.replicate (indices.length - 1) (some "continue") ++ [some "tie"] := by
  induction indices with
  | nil => intro s _ _ _ _ _ _ _ hne; exact absurd rfl hne
  | cons i rest ih =>
    intro s hover hsym hlen hnd hcells hcover hfinal _
    have hi := hcells i (by simp)
    have hm : (makeMove s.board i s.currentPlayer.symbol).1 = true := by
      unfold makeMove; rw [if_pos hi]
    have hset : (makeMove s.board i s.currentPlayer.symbol).2
        = s.board.set i.toNat s.currentPlayer.symbol := by
      unfold makeMove; rw [if_pos hi]
    have hlt : i.toNat < s.board.length := by rw [hlen]; omega
    have hnew : (s.board.set i.toNat s.currentPlayer.symbol)[i.toNat]?
        = some s.currentPlayer.symbol := by
      simp [List.getElem?_set, hlt]
    have hother : ∀ j : Nat, j ≠ i.toNat →
        (s.board.set i.toNat s.currentPlayer.symbol)[j]? = s.board[j]? := by
      intro j hj
      simp [List.getElem?_set, Ne.symm hj]
    simp only [playRounds] at hfinal ⊢
    cases hw : truthy (checkWinner (makeMove s.board i s.currentPlayer.symbol).2) with
    | true =>
      exfalso
      rw [playRound_win s i hover hm hw] at hfinal
      simp only at hfinal
      rw [playRounds_over rest _ rfl] at hfinal
      simp only at hfinal
      rw [hw] at hfinal
      exact absurd hfinal (by decide)
    | false =>
      have htie_eq : checkTie (makeMove s.board i s.currentPlayer.symbol).2
          = (makeMove s.board i s.currentPlayer.symbol).2.all (fun cell => cell != "") := by
        unfold checkTie
        rw [getBoard_eq, hw]
        simp
      by_cases hrest : rest = []
      · subst hrest
        have htie : checkTie (makeMove s.board i s.currentPlayer.symbol).2 = true := by
          rw [htie_eq, all_nonempty_iff _ (by rw [makeMove_length, hlen]), hset]
          intro j hj
          by_cases hji : j = i.toNat
          · exact ⟨s.currentPlayer.symbol, hsym, by rw [hji]; exact hnew⟩
          · have hjlt : j < s.board.length := by omega
            refine ⟨s.board[j], ?_, ?_⟩
            · intro he
              have hmem := hcover j hj (by rw [List.getElem?_eq_getElem hjlt, he])
              rw [List.mem_singleton] at hmem
              omega
            · rw [hother j hji, List.getElem?_eq_getElem hjlt]
        rw [playRound_tie s i hover hm hw htie]
        rfl
      · obtain ⟨r, rest2, hr⟩ := List.exists_cons_of_ne_nil hrest
        have hrmem : r ∈ rest := by rw [hr]; simp
        have hri : r ≠ i := by
          intro e
          rw [e] at hrmem
          exact (List.nodup_cons.1 hnd).1 hrmem
        have hrc := hcells r (by simp [hrmem])
        have htie : checkTie (makeMove s.board i s.currentPlayer.symbol).2 = false := by
          cases hc : checkTie (makeMove s.board i s.currentPlayer.symbol).2 with
          | false => rfl
          | true =>
            rw [htie_eq, all_nonempty_iff _ (by rw [makeMove_length, hlen]), hset] at hc
            obtain ⟨m, hmne, hmeq⟩ := hc r.toNat (by omega)
            rw [hother r.toNat (by omega), hrc.2.2] at hmeq
            exact absurd (Option.some.inj hmeq).symm hmne
        rw [playRound_continue s i hover hm hw htie] at hfinal ⊢
        simp only at hfinal ⊢
        have hrec := ih
          { board := (makeMove s.board i s.currentPlayer.symbol).2,
            currentPlayer := if s.currentPlayer = playerX then playerO else playerX,
            isGameOver := false }
          rfl (switched_symbol_ne _) (by simp only [makeMove_length, hlen])
          (List.nodup_cons.1 hnd).2
          (by
            intro k hk
            have hkc := hcells k (by simp [hk])
            have hki : k ≠ i := by
              intro e
              rw [e] at hk
              exact (List.nodup_cons.1 hnd).1 hk
            refine ⟨hkc.1, hkc.2.1, ?_⟩
            simp only [hset]
            rw [hother k.toNat (by omega)]
            exact hkc.2.2)
          (by
            intro j hj hje
            simp only [hset] at hje
            have hji : j ≠ i.toNat := by
              intro e
              rw [e, hnew] at hje
              exact hsym (Option.some.inj hje)
            rw [hother j hji] at hje
            rcases List.mem_cons.1 (hcover j hj hje) with h | h
            · omega
            · exact h)
          hfinal hrest
        rw [hrec, hr]
        simp [List.replicate_succ]

/-! ## The board module -/

/-- C1: `makeMove(index, mark)` returns true exactly when `0 <= index < 9` and the cell
at `index` is empty; on true the cell at `index` holds `mark`, every other cell is as
before and the number of cells is kept; on false the board is as before. -/
theorem makeMove_spec (board : List String) (index : Int) (mark : String) :
    ((makeMove board index mark).1 = true ↔
        (0 ≤ index ∧ index < 9 ∧ board[index.toNat]? = some "")) ∧
    ((makeMove board index mark).1 = true →
        (makeMove board index mark).2[index.toNat]? = some mark ∧
        (∀ j : Nat, j ≠ index.toNat →
          (makeMove board index mark).2[j]? = board[j]?) ∧
        (makeMove board index mark).2.length = board.length) ∧
    ((makeMove board index mark).1 = false → (makeMove board index mark).2 = board) := by
  by_cases h : 0 ≤ index ∧ index < 9 ∧ board[index.toNat]? = some ""
  · have hlt : index.toNat < board.length := by
      have := h.2.2
      by_contra hc
      rw [List.getElem?_eq_none (by omega)] at this
      exact Option.noConfusion this
    simp only [makeMove, h, and_self, if_true, true_iff, forall_true_left]
    refine ⟨trivial, ⟨?_, ?_, ?_⟩, ?_⟩
    · simp [List.getElem?_set, hlt]
    · intro j hj
      simp [List.getElem?_set, Ne.symm hj]
    · simp
    · intro hf
      simp at hf
  · simp only [makeMove, h, if_false]
    simp

/-- C1, at a board of 9 cells: a move on the empty cell 4 of a board that already holds
two marks. -/
theorem makeMove_spec_witness :
    (makeMove ["X", "", "", "", "", "", "", "", "O"] 4 "X").1 = true ∧
    (makeMove ["X", "", "", "", "", "", "", "", "O"] 4 "X").2[(4 : Int).toNat]?
      = some "X" := by
  have h := makeMove_spec ["X", "", "", "", "", "", "", "", "O"] 4 "X"
  have h1 : (makeMove ["X", "", "", "", "", "", "", "", "O"] 4 "X").1 = true :=
    h.1.2 (by decide)
  exact ⟨h1, (h.2.1 h1).1⟩

/-! ## Winner detection -/

/-- C2: `checkWinner` returns `null` exactly when none of the 8 combinations holds three
non-empty identical cells, and otherwise it returns the mark of the first combination,
in the scan order of `winningCombinations`, that does. -/
theorem checkWinner_spec (board : List String) :
    (checkWinner board = none ↔
        ∀ t ∈ winningCombinations, ¬ ∃ m, m ≠ "" ∧ board[t.1]? = some m ∧
          board[t.2.1]? = some m ∧ board[t.2.2]? = some m) ∧
    (∀ (pre : List (Nat × Nat × Nat)) (t : Nat × Nat × Nat)
        (post : List (Nat × Nat × Nat)) (m : String),
        winningCombinations = pre ++ t :: post →
        (∀ u ∈ pre, ¬ ∃ k, k ≠ "" ∧ board[u.1]? = some k ∧
          board[u.2.1]? = some k ∧ board[u.2.2]? = some k) →
        m ≠ "" → board[t.1]? = some m → board[t.2.1]? = some m →
        board[t.2.2]? = some m →
        checkWinner board = some m) := by
  constructor
  · unfold checkWinner
    rw [getBoard_eq, checkWinnerLoop_eq_none_iff]
    constructor
    · intro h t ht hex
      have := (lineWins_iff board t).2 hex
      rw [h t ht] at this
      exact Bool.false_ne_true this
    · intro h t ht
      cases hl : lineWins board t with
      | false => rfl
      | true => exact absurd ((lineWins_iff board t).1 hl) (h t ht)
  · intro pre t post m hsplit hpre hm h1 h2 h3
    unfold checkWinner
    rw [getBoard_eq, hsplit, checkWinnerLoop_first board pre t post ?_ ?_, h1]
    · intro u hu
      cases hl : lineWins board u with
      | false => rfl
      | true => exact absurd ((lineWins_iff board u).1 hl) (hpre u hu)
    · exact (lineWins_iff board t).2 ⟨m, hm, h1, h2, h3⟩

/-- C2, at a board where both the second row and the first column are full lines of
different marks: the row `[3,4,5]` comes first in the scan order and decides. -/
theorem checkWinner_spec_witness :
    checkWinner ["X", "", "", "O", "O", "O", "X", "", ""] = some "O" :=
  (checkWinner_spec ["X", "", "", "O", "O", "O", "X", "", ""]).2
    [(0, 1, 2)] (3, 4, 5) [(6, 7, 8), (0, 3, 6), (1, 4, 7), (2, 5, 8), (0, 4, 8), (2, 4, 6)]
    "O" rfl
    (by
      intro u hu
      rw [List.mem_singleton] at hu
      subst hu
      rintro ⟨k, hk, _, h2, _⟩
      simp at h2
      exact hk h2.symm)
    (by decide) rfl rfl rfl

/-! ## One round -/

/-- C3: while the game is not over, `playRound(index)` returns `"tie"` exactly when the
move is accepted and, on the board after the placement, all 9 cells are non-empty and no
combination holds three non-empty identical cells. -/
theorem playRound_tie_iff (s : Session) (index : Int) (hlen : s.board.length = 9)
    (hover : s.isGameOver = false) :
    (playRound s index).1 = some "tie" ↔
      ((makeMove s.board index s.currentPlayer.symbol).1 = true ∧
       (∀ i : Nat, i < 9 → ∃ m, m ≠ "" ∧
          (makeMove s.board index s.currentPlayer.symbol).2[i]? = some m) ∧
       (∀ t ∈ winningCombinations, ¬ ∃ m, m ≠ "" ∧
          (makeMove s.board index s.currentPlayer.symbol).2[t.1]? = some m ∧
          (makeMove s.board index s.currentPlayer.symbol).2[t.2.1]? = some m ∧
          (makeMove s.board index s.currentPlayer.symbol).2[t.2.2]? = some m)) := by
  have hlen2 := makeMove_length s.board index s.currentPlayer.symbol
  rw [hlen] at hlen2
  have hall := all_nonempty_iff _ hlen2
  have hno := truthy_checkWinner_false_iff (makeMove s.board index s.currentPlayer.symbol).2
  cases hr : (makeMove s.board index s.currentPlayer.symbol).1 with
  | false =>
    rw [playRound_rejected s index hover hr]
    constructor
    · intro h
      simp at h
    · rintro ⟨h, _⟩
      exact absurd h (by decide)
  | true =>
    cases htr : truthy (checkWinner (makeMove s.board index s.currentPlayer.symbol).2) with
    | true =>
      rw [playRound_win s index hover hr htr]
      constructor
      · intro h
        simp at h
      · rintro ⟨_, _, h⟩
        have := hno.2 h
        rw [htr] at this
        exact absurd this (by decide)
    | false =>
      have htie : checkTie (makeMove s.board index s.currentPlayer.symbol).2 = true ↔
          ∀ i : Nat, i < 9 → ∃ m, m ≠ "" ∧
            (makeMove s.board index s.currentPlayer.symbol).2[i]? = some m := by
        unfold checkTie
        rw [getBoard_eq, htr]
        simpa using hall
      cases hct : checkTie (makeMove s.board index s.currentPlayer.symbol).2 with
      | true =>
        rw [playRound_tie s index hover hr htr hct]
        exact ⟨fun _ => ⟨rfl, htie.1 hct, hno.1 htr⟩, fun _ => rfl⟩
      | false =>
        rw [playRound_continue s index hover hr htr hct]
        constructor
        · intro h
          simp at h
        · rintro ⟨_, h, _⟩
          have := htie.2 h
          rw [hct] at this
          exact absurd this (by decide)

/-- C3, at the last move of a drawn game: O has no line, X fills cell 7 of the full
board `X O X / O X O / O X X`-to-be and the round reports a tie. -/
theorem playRound_tie_iff_witness :
    (playRound ⟨["X", "O", "X", "O", "X", "X", "O", "", "O"], playerX, false⟩ 7).1
        = some "tie" ↔
      ((makeMove ["X", "O", "X", "O", "X", "X", "O", "", "O"] 7 "X").1 = true ∧
       (∀ i : Nat, i < 9 → ∃ m, m ≠ "" ∧
          (makeMove ["X", "O", "X", "O", "X", "X", "O", "", "O"] 7 "X").2[i]? = some m) ∧
       (∀ t ∈ winningCombinations, ¬ ∃ m, m ≠ "" ∧
          (makeMove ["X", "O", "X", "O", "X", "X", "O", "", "O"] 7 "X").2[t.1]? = some m ∧
          (makeMove ["X", "O", "X", "O", "X", "X", "O", "", "O"] 7 "X").2[t.2.1]? = some m ∧
          (makeMove ["X", "O", "X", "O", "X", "X", "O", "", "O"] 7 "X").2[t.2.2]? = some m)) :=
  playRound_tie_iff ⟨["X", "O", "X", "O", "X", "X", "O", "", "O"], playerX, false⟩ 7
    (by decide) rfl

/-- C4: while the game is not over, `playRound(index)` with an index below 0, an index of
9 or more, or an index whose cell is not empty returns `"invalid"` and leaves the board,
the current player and the game-over flag as they were. -/
theorem playRound_invalid (s : Session) (index : Int) (hover : s.isGameOver = false)
    (hbad : index < 0 ∨ 9 ≤ index ∨ s.board[index.toNat]? ≠ some "") :
    playRound s index = (some "invalid", s) := by
  apply playRound_rejected s index hover
  unfold makeMove
  rw [if_neg]
  rintro ⟨h0, h9, he⟩
  rcases hbad with h | h | h
  · omega
  · omega
  · exact h he

/-- C4, at an occupied cell and at two out-of-range indices. -/
theorem playRound_invalid_witness :
    playRound ⟨["X", "", "", "", "", "", "", "", ""], playerO, false⟩ 0
      = (some "invalid", ⟨["X", "", "", "", "", "", "", "", ""], playerO, false⟩) ∧
    playRound ⟨["X", "", "", "", "", "", "", "", ""], playerO, false⟩ (-1)
      = (some "invalid", ⟨["X", "", "", "", "", "", "", "", ""], playerO, false⟩) ∧
    playRound ⟨["X", "", "", "", "", "", "", "", ""], playerO, false⟩ 9
      = (some "invalid", ⟨["X", "", "", "", "", "", "", "", ""], playerO, false⟩) :=
  ⟨playRound_invalid ⟨["X", "", "", "", "", "", "", "", ""], playerO, false⟩ 0 rfl
      (Or.inr (Or.inr (by decide))),
   playRound_invalid ⟨["X", "", "", "", "", "", "", "", ""], playerO, false⟩ (-1) rfl
      (Or.inl (by decide)),
   playRound_invalid ⟨["X", "", "", "", "", "", "", "", ""], playerO, false⟩ 9 rfl
      (Or.inr (Or.inl (by decide)))⟩

/-- C5: once the game is over, `playRound(index)` changes nothing: the board, the current
player and the game-over flag are as before the call. -/
theorem playRound_gameOver_noop (s : Session) (index : Int) (hover : s.isGameOver = true) :
    (playRound s index).2 = s ∧
    (playRound s index).2.board = s.board ∧
    (playRound s index).2.currentPlayer = s.currentPlayer ∧
    (playRound s index).2.isGameOver = s.isGameOver := by
  rw [playRound_over s index hover]
  exact ⟨rfl, rfl, rfl, rfl⟩

/-- C5, at a won game and the still empty cell 5. -/
theorem playRound_gameOver_noop_witness :
    (playRound ⟨["X", "X", "X", "O", "O", "", "", "", ""], playerX, true⟩ 5).2
      = ⟨["X", "X", "X", "O", "O", "", "", "", ""], playerX, true⟩ :=
  (playRound_gameOver_noop ⟨["X", "X", "X", "O", "O", "", "", "", ""], playerX, true⟩ 5
    rfl).1

/-- C6, as stated, fails: after the won game `0,3,1,4,2` the session is over and
`playRound(5)` returns `undefined`, which is neither `"invalid"` nor any other result
value. -/
theorem playRound_gameOver_no_result :
    (run initialSession [Call.playRound 0, Call.playRound 3, Call.playRound 1,
        Call.playRound 4, Call.playRound 2]).isGameOver = true ∧
    ¬ ∃ r : String, (playRound (run initialSession [Call.playRound 0, Call.playRound 3,
        Call.playRound 1, Call.playRound 4, Call.playRound 2]) 5).1 = some r := by
  refine ⟨by decide, ?_⟩
  rintro ⟨r, hr⟩
  have hnone : (playRound (run initialSession [Call.playRound 0, Call.playRound 3,
      Call.playRound 1, Call.playRound 4, Call.playRound 2]) 5).1 = none := by decide
  rw [hnone] at hr
  exact Option.noConfusion hr

/-- C6, amended: once the game is over, `playRound(index)` returns `undefined` (the bare
`return` of the guard), whatever the index. -/
theorem playRound_gameOver_undefined (s : Session) (index : Int)
    (hover : s.isGameOver = true) : (playRound s index).1 = none := by
  rw [playRound_over s index hover]

/-- C6, amended, at a tied game. -/
theorem playRound_gameOver_undefined_witness :
    (playRound ⟨["X", "O", "X", "O", "X", "X", "O", "X", "O"], playerX, true⟩ 3).1 = none :=
  playRound_gameOver_undefined ⟨["X", "O", "X", "O", "X", "X", "O", "X", "O"], playerX, true⟩
    3 rfl

/-- C7: after `resetGame()` the board read by `getBoard()` has 9 empty cells, the current
player is player X (`"Giocatore 1"`, `"X"`), the game-over flag is false, and the whole
state is the initial one. -/
theorem resetGame_spec (s : Session) :
    getBoard (resetGame s).board = ["", "", "", "", "", "", "", "", ""] ∧
    getCurrentPlayer (resetGame s) = { name := "Giocatore 1", symbol := "X" } ∧
    getCurrentPlayer (resetGame s) = playerX ∧
    (resetGame s).isGameOver = false ∧
    resetGame s = initialSession := by
  refine ⟨rfl, rfl, rfl, rfl, rfl⟩

/-- C8: when `playRound(index)` returns `"continue"`, the current player after the call
differs from the one before it, X having become O and O having become X. -/
theorem playRound_continue_switches (s : Session) (index : Int)
    (hres : (playRound s index).1 = some "continue") :
    getCurrentPlayer (playRound s index).2 ≠ getCurrentPlayer s ∧
    (getCurrentPlayer s = playerX → getCurrentPlayer (playRound s index).2 = playerO) ∧
    (getCurrentPlayer s = playerO → getCurrentPlayer (playRound s index).2 = playerX) := by
  have hsw : (playRound s index).2.currentPlayer =
      if s.currentPlayer = playerX then playerO else playerX := by
    cases hover : s.isGameOver with
    | true =>
      rw [playRound_over s index hover] at hres
      simp at hres
    | false =>
      cases hm : (makeMove s.board index s.currentPlayer.symbol).1 with
      | false =>
        rw [playRound_rejected s index hover hm] at hres
        simp at hres
      | true =>
        cases hw : truthy (checkWinner (makeMove s.board index s.currentPlayer.symbol).2) with
        | true =>
          rw [playRound_win s index hover hm hw] at hres
          simp at hres
        | false =>
          cases ht : checkTie (makeMove s.board index s.currentPlayer.symbol).2 with
          | true =>
            rw [playRound_tie s index hover hm hw ht] at hres
            simp at hres
          | false =>
            rw [playRound_continue s index hover hm hw ht]
  simp only [getCurrentPlayer]
  rw [hsw]
  refine ⟨?_, ?_, ?_⟩
  · by_cases h : s.currentPlayer = playerX
    · rw [if_pos h, h]
      decide
    · rw [if_neg h]
      exact fun hc => h hc.symm
  · intro h
    rw [if_pos h]
  · intro h
    rw [if_neg (by rw [h]; decide)]

/-- C8, at the first move of a game. -/
theorem playRound_continue_switches_witness :
    getCurrentPlayer (playRound initialSession 4).2 ≠ getCurrentPlayer initialSession ∧
    (getCurrentPlayer initialSession = playerX →
      getCurrentPlayer (playRound initialSession 4).2 = playerO) ∧
    (getCurrentPlayer initialSession = playerO →
      getCurrentPlayer (playRound initialSession 4).2 = playerX) :=
  playRound_continue_switches initialSession 4 (by decide)

/-! ## Reachable session states -/

/-- C9: in every state reached from the initial one by `playRound` and `resetGame` calls,
the game-over flag is true exactly when `checkWinner()` returns a mark or `checkTie()` is
true on the current board. -/
theorem reachable_gameOver_iff_outcome (calls : List Call) :
    (run initialSession calls).isGameOver = true ↔
      ((∃ m, m ≠ "" ∧ checkWinner (run initialSession calls).board = some m) ∨
        checkTie (run initialSession calls).board = true) := by
  have h := (sessionInv_run calls initialSession sessionInv_initial).1
  rw [truthy_eq_true_iff] at h
  exact h

/-- C10: in every state reached from the initial one by `playRound` and `resetGame`
calls, any two combinations that are full lines hold the same mark, and scanning the 8
combinations in any order gives the value of `checkWinner()`. -/
theorem reachable_single_winning_mark (calls : List Call) :
    (∀ t ∈ winningCombinations, ∀ u ∈ winningCombinations, ∀ m k : String,
        (m ≠ "" ∧ (run initialSession calls).board[t.1]? = some m ∧
          (run initialSession calls).board[t.2.1]? = some m ∧
          (run initialSession calls).board[t.2.2]? = some m) →
        (k ≠ "" ∧ (run initialSession calls).board[u.1]? = some k ∧
          (run initialSession calls).board[u.2.1]? = some k ∧
          (run initialSession calls).board[u.2.2]? = some k) →
        m = k) ∧
    (∀ order : List (Nat × Nat × Nat), order.Perm winningCombinations →
        checkWinnerLoop (getBoard (run initialSession calls).board) order
          = checkWinner (run initialSession calls).board) := by
  have hinv := (sessionInv_run calls initialSession sessionInv_initial).2
  generalize (run initialSession calls).board = board at hinv ⊢
  constructor
  · intro t ht u hu m k hm hk
    have e := hinv t ht u hu ((lineWins_iff board t).2 ⟨m, hm⟩)
      ((lineWins_iff board u).2 ⟨k, hk⟩)
    rw [hm.2.1, hk.2.1] at e
    exact Option.some.inj e
  · intro order hperm
    unfold checkWinner
    rw [getBoard_eq]
    rcases checkWinnerLoop_cases board order with ⟨hn, hall⟩ | ⟨t, ht, hlt, het⟩
    · rw [hn]
      symm
      rw [checkWinnerLoop_eq_none_iff]
      intro v hv
      exact hall v (hperm.mem_iff.2 hv)
    · rcases checkWinnerLoop_cases board winningCombinations with
        ⟨_, hall⟩ | ⟨u, hu, hlu, heu⟩
      · have := hall t (hperm.mem_iff.1 ht)
        rw [hlt] at this
        exact absurd this (by decide)
      · rw [het, heu]
        exact hinv t (hperm.mem_iff.1 ht) u hu hlt hlu

/-- C10, at the game `1,4,2,5,3,7,6,8,0`, whose last move completes the row `[0,1,2]`
and the column `[0,3,6]` at once: both hold X, and the scan in reverse order returns the
same winner. -/
theorem reachable_single_winning_mark_witness :
    (List.reverse winningCombinations).Perm winningCombinations ∧
    checkWinnerLoop
        (getBoard (run initialSession [Call.playRound 1, Call.playRound 4,
          Call.playRound 2, Call.playRound 5, Call.playRound 3, Call.playRound 7,
          Call.playRound 6, Call.playRound 8, Call.playRound 0]).board)
        (List.reverse winningCombinations)
      = checkWinner (run initialSession [Call.playRound 1, Call.playRound 4,
          Call.playRound 2, Call.playRound 5, Call.playRound 3, Call.playRound 7,
          Call.playRound 6, Call.playRound 8, Call.playRound 0]).board :=
  ⟨List.reverse_perm winningCombinations,
   (reachable_single_winning_mark [Call.playRound 1, Call.playRound 4,
      Call.playRound 2, Call.playRound 5, Call.playRound 3, Call.playRound 7,
      Call.playRound 6, Call.playRound 8, Call.playRound 0]).2
      (List.reverse winningCombinations) (List.reverse_perm winningCombinations)⟩

/-! ## Scenarios and frame properties -/

/-- C11: from the initial state the calls `playRound(0)`, `playRound(4)`, `playRound(1)`,
`playRound(5)`, `playRound(2)` return `"continue"` four times and then `"win"`;
afterwards `checkWinner()` is `"X"`, cells 0, 1, 2 hold `"X"` and cells 4, 5 hold `"O"`. -/
theorem scenario_row_win :
    (playRounds initialSession [0, 4, 1, 5, 2]).1 =
      [some "continue", some "continue", some "continue", some "continue", some "win"] ∧
    checkWinner (playRounds initialSession [0, 4, 1, 5, 2]).2.board = some playerX.symbol ∧
    playerX.symbol = "X" ∧
    (getBoard (playRounds initialSession [0, 4, 1, 5, 2]).2.board)[0]? = some "X" ∧
    (getBoard (playRounds initialSession [0, 4, 1, 5, 2]).2.board)[1]? = some "X" ∧
    (getBoard (playRounds initialSession [0, 4, 1, 5, 2]).2.board)[2]? = some "X" ∧
    (getBoard (playRounds initialSession [0, 4, 1, 5, 2]).2.board)[4]? = some "O" ∧
    (getBoard (playRounds initialSession [0, 4, 1, 5, 2]).2.board)[5]? = some "O" := by
  decide

/-- C13: a `makeMove` call (with any symbol, `"X"` and `"O"` included) and a `playRound`
call keep every cell that holds a mark, and a board of 9 cells still has 9 cells
afterwards. -/
theorem marks_persist (board : List String) (hlen : board.length = 9) :
    (∀ (index : Int) (playerSymbol : String),
        (makeMove board index playerSymbol).2.length = 9 ∧
        ∀ (j : Nat) (m : String), m ≠ "" → board[j]? = some m →
          (makeMove board index playerSymbol).2[j]? = some m) ∧
    (∀ (s : Session) (index : Int), s.board = board →
        (playRound s index).2.board.length = 9 ∧
        ∀ (j : Nat) (m : String), m ≠ "" → board[j]? = some m →
          (playRound s index).2.board[j]? = some m) := by
  have hmk : ∀ (index : Int) (playerSymbol : String),
      (makeMove board index playerSymbol).2.length = 9 ∧
      ∀ (j : Nat) (m : String), m ≠ "" → board[j]? = some m →
        (makeMove board index playerSymbol).2[j]? = some m := by
    intro index playerSymbol
    refine ⟨by rw [makeMove_length, hlen], ?_⟩
    intro j m hm hj
    cases hr : (makeMove board index playerSymbol).1 with
    | false => rw [makeMove_rejected_board hr]; exact hj
    | true =>
      obtain ⟨n, _, hempty, hset⟩ := makeMove_accepted_empty hr
      rw [hset]
      have hne : n ≠ j := by
        intro e
        rw [e, hj] at hempty
        exact hm (Option.some.inj hempty)
      simp [List.getElem?_set, hne, hj]
  refine ⟨hmk, ?_⟩
  intro s index hs
  subst hs
  have hb := playRound_board s index
  rcases hb with hb | hb
  · rw [hb]
    exact ⟨hlen, fun j m _ hj => hj⟩
  · rw [hb]
    exact hmk index s.currentPlayer.symbol

/-- C13, at a board with three marks: O moves on cell 8 and the marks on cells 0, 1, 4
stay. -/
theorem marks_persist_witness :
    (playRound ⟨["X", "O", "", "", "X", "", "", "", ""], playerO, false⟩ 8).2.board.length
      = 9 ∧
    (playRound ⟨["X", "O", "", "", "X", "", "", "", ""], playerO, false⟩ 8).2.board[4]?
      = some "X" :=
  ⟨((marks_persist ["X", "O", "", "", "X", "", "", "", ""] (by decide)).2
      ⟨["X", "O", "", "", "X", "", "", "", ""], playerO, false⟩ 8 rfl).1,
   ((marks_persist ["X", "O", "", "", "X", "", "", "", ""] (by decide)).2
      ⟨["X", "O", "", "", "X", "", "", "", ""], playerO, false⟩ 8 rfl).2 4 "X"
      (by decide) rfl⟩

/-- C14: on an empty cell `i` in `0..8` a `makeMove(i, mark)` with mark `"X"` or `"O"`
succeeds, and after it, whatever `makeMove` calls come in between, every
`makeMove(i, anyMark)` returns false. -/
theorem makeMove_succeeds_once (board : List String) (i : Int) (mark : String)
    (hi : 0 ≤ i ∧ i < 9) (hempty : board[i.toNat]? = some "")
    (hmark : mark = "X" ∨ mark = "O")
    (between : List (Int × String)) (anyMark : String) :
    (makeMove board i mark).1 = true ∧
    (makeMove (makeMoves (makeMove board i mark).2 between) i anyMark).1 = false := by
  have hne : mark ≠ "" := by
    rcases hmark with h | h <;> rw [h] <;> decide
  have hacc : (makeMove board i mark).1 = true := by
    unfold makeMove
    rw [if_pos ⟨hi.1, hi.2, hempty⟩]
  refine ⟨hacc, ?_⟩
  have hcell : (makeMove board i mark).2[i.toNat]? = some mark :=
    (makeMove_spec_aux board i mark hacc).1
  have hkeep : (makeMoves (makeMove board i mark).2 between)[i.toNat]? = some mark :=
    makeMoves_keeps between _ _ _ hne hcell
  generalize makeMoves (makeMove board i mark).2 between = later at hkeep
  unfold makeMove
  rw [if_neg]
  rintro ⟨_, _, he⟩
  rw [hkeep] at he
  exact hne (Option.some.inj he)

/-- C14, at the empty board: X takes cell 4, three more calls follow (one of them on
cell 4 again), and a further call on cell 4 is refused. -/
theorem makeMove_succeeds_once_witness :
    (makeMove emptyBoard 4 "X").1 = true ∧
    (makeMove (makeMoves (makeMove emptyBoard 4 "X").2 [(0, "O"), (4, "O"), (8, "X")])
      4 "O").1 = false :=
  makeMove_succeeds_once emptyBoard 4 "X" (by decide) rfl (Or.inl rfl)
    [(0, "O"), (4, "O"), (8, "X")] "O"

/-- C16: while the game is not over, `playRound(i)` on an empty cell `i` in `0..8` writes
the symbol of the player who was current before the call into cell `i` and leaves every
other cell as it was. -/
theorem playRound_places_symbol (s : Session) (i : Int) (hover : s.isGameOver = false)
    (hi : 0 ≤ i ∧ i < 9) (hempty : s.board[i.toNat]? = some "") :
    (playRound s i).2.board[i.toNat]? = some (getCurrentPlayer s).symbol ∧
    ∀ j : Nat, j ≠ i.toNat → (playRound s i).2.board[j]? = s.board[j]? := by
  have hacc : (makeMove s.board i s.currentPlayer.symbol).1 = true := by
    unfold makeMove
    rw [if_pos ⟨hi.1, hi.2, hempty⟩]
  rw [playRound_board_same_cases s i hover hacc]
  exact makeMove_spec_aux s.board i s.currentPlayer.symbol hacc

/-- C16, at O's move on cell 8 of a board with three marks. -/
theorem playRound_places_symbol_witness :
    (playRound ⟨["X", "O", "", "", "X", "", "", "", ""], playerO, false⟩ 8).2.board[
        (8 : Int).toNat]? = some "O" :=
  (playRound_places_symbol ⟨["X", "O", "", "", "X", "", "", "", ""], playerO, false⟩ 8
    rfl (by decide) rfl).1

/-! ## Win, tie and turn order -/

/-- C17: a win takes priority over a tie. While the game is not over, an accepted move
after which no cell is empty and some combination holds three non-empty identical cells
makes `playRound` return `"win"`, not `"tie"`; the game `0,3,1,4,5,7,6,8,2` from the
initial state returns `"continue"` eight times and `"win"` on the ninth move. -/
theorem win_before_tie :
    (∀ (s : Session) (index : Int), s.isGameOver = false →
        (makeMove s.board index s.currentPlayer.symbol).1 = true →
        (∀ c ∈ (makeMove s.board index s.currentPlayer.symbol).2, c ≠ "") →
        (∃ t ∈ winningCombinations, ∃ m, m ≠ "" ∧
          (makeMove s.board index s.currentPlayer.symbol).2[t.1]? = some m ∧
          (makeMove s.board index s.currentPlayer.symbol).2[t.2.1]? = some m ∧
          (makeMove s.board index s.currentPlayer.symbol).2[t.2.2]? = some m) →
        (playRound s index).1 = some "win" ∧ (playRound s index).1 ≠ some "tie") ∧
    (playRounds initialSession [0, 3, 1, 4, 5, 7, 6, 8, 2]).1 =
      [some "continue", some "continue", some "continue", some "continue",
       some "continue", some "continue", some "continue", some "continue",
       some "win"] := by
  refine ⟨?_, by decide⟩
  intro s index hover hm _ hline
  obtain ⟨t, ht, hex⟩ := hline
  have hw := (checkWinner_truthy_iff _).2 ⟨t, ht, (lineWins_iff _ t).2 hex⟩
  rw [playRound_win s index hover hm hw]
  exact ⟨rfl, by simp⟩

/-- C17, at the ninth move of the game `0,3,1,4,5,7,6,8,2`: X fills the last empty cell 2
and completes the row `[0,1,2]`. -/
theorem win_before_tie_witness :
    (playRound ⟨["X", "X", "", "O", "O", "X", "X", "O", "O"], playerX, false⟩ 2).1
      = some "win" :=
  (win_before_tie.1 ⟨["X", "X", "", "O", "O", "X", "X", "O", "O"], playerX, false⟩ 2 rfl
    (by decide) (by decide) ⟨(0, 1, 2), by decide, "X", by decide, rfl, rfl, rfl⟩).1

/-- C19: in a state reached from the initial one by `playRound` and `resetGame` calls,
when `playRound(index)` returns `"win"` the mark returned by `checkWinner()` is the
symbol of `getCurrentPlayer()` after the call, and that player is the one who was current
before the call, the one who made the move. -/
theorem reachable_win_names_mover (calls : List Call) (index : Int)
    (hwin : (playRound (run initialSession calls) index).1 = some "win") :
    checkWinner (playRound (run initialSession calls) index).2.board
      = some (getCurrentPlayer (playRound (run initialSession calls) index).2).symbol ∧
    getCurrentPlayer (playRound (run initialSession calls) index).2
      = getCurrentPlayer (run initialSession calls) := by
  have hinv := sessionInv_run calls initialSession sessionInv_initial
  generalize run initialSession calls = s at hinv hwin ⊢
  cases hover : s.isGameOver with
  | true =>
    rw [playRound_over s index hover] at hwin
    simp at hwin
  | false =>
    cases hm : (makeMove s.board index s.currentPlayer.symbol).1 with
    | false =>
      rw [playRound_rejected s index hover hm] at hwin
      simp at hwin
    | true =>
      cases hw : truthy (checkWinner (makeMove s.board index s.currentPlayer.symbol).2) with
      | false =>
        cases htie : checkTie (makeMove s.board index s.currentPlayer.symbol).2 with
        | true =>
          rw [playRound_tie s index hover hm hw htie] at hwin
          simp at hwin
        | false =>
          rw [playRound_continue s index hover hm hw htie] at hwin
          simp at hwin
      | true =>
        rw [playRound_win s index hover hm hw]
        refine ⟨?_, rfl⟩
        simp only [getCurrentPlayer]
        unfold checkWinner at hw ⊢
        rw [getBoard_eq] at hw ⊢
        rcases checkWinnerLoop_cases (makeMove s.board index s.currentPlayer.symbol).2
            winningCombinations with ⟨hn, _⟩ | ⟨t, ht, hl, he⟩
        · rw [hn] at hw
          exact absurd hw (by decide)
        · rw [he]
          exact winning_line_mark index hinv hover t ht hl

/-- C19, at the fifth move of the game `0,3,1,4,2`: X wins and is still the current
player. -/
theorem reachable_win_names_mover_witness :
    checkWinner (playRound (run initialSession [Call.playRound 0, Call.playRound 3,
        Call.playRound 1, Call.playRound 4]) 2).2.board
      = some (getCurrentPlayer (playRound (run initialSession [Call.playRound 0,
        Call.playRound 3, Call.playRound 1, Call.playRound 4]) 2).2).symbol :=
  (reachable_win_names_mover [Call.playRound 0, Call.playRound 3, Call.playRound 1,
    Call.playRound 4] 2 (by decide)).1

/-- C20: in a state reached from the initial one by `playRound` and `resetGame` calls,
the number of `"X"` cells is the number of `"O"` cells or one more, and while the game is
not over the current player is X exactly when the counts are equal and O exactly when X
has one more. -/
theorem reachable_turn_parity (calls : List Call) :
    ((run initialSession calls).board.count "X" = (run initialSession calls).board.count "O" ∨
      (run initialSession calls).board.count "X"
        = (run initialSession calls).board.count "O" + 1) ∧
    ((run initialSession calls).isGameOver = false →
      (getCurrentPlayer (run initialSession calls) = playerX ↔
        (run initialSession calls).board.count "X"
          = (run initialSession calls).board.count "O") ∧
      (getCurrentPlayer (run initialSession calls) = playerO ↔
        (run initialSession calls).board.count "X"
          = (run initialSession calls).board.count "O" + 1)) := by
  have hinv := turnInv_run calls initialSession turnInv_initial
  generalize run initialSession calls = s at hinv ⊢
  refine ⟨hinv.2, fun hover => ?_⟩
  simp only [getCurrentPlayer]
  have hne : playerX ≠ playerO := by decide
  rcases hinv.1 hover with ⟨hp, hc⟩ | ⟨hp, hc⟩
  · refine ⟨⟨fun _ => hc, fun _ => hp⟩, ⟨fun h => ?_, fun h => ?_⟩⟩
    · rw [hp] at h
      exact absurd h hne
    · omega
  · refine ⟨⟨fun h => ?_, fun h => ?_⟩, ⟨fun _ => hc, fun _ => hp⟩⟩
    · rw [hp] at h
      exact absurd h.symm hne
    · omega

/-- C20, after the three moves `0,4,8` (two X, one O, O to move), the game still
running. -/
theorem reachable_turn_parity_witness :
    (run initialSession [Call.playRound 0, Call.playRound 4, Call.playRound 8]).isGameOver
      = false ∧
    (getCurrentPlayer (run initialSession [Call.playRound 0, Call.playRound 4,
        Call.playRound 8]) = playerO ↔
      (run initialSession [Call.playRound 0, Call.playRound 4, Call.playRound 8]).board.count
          "X"
        = (run initialSession [Call.playRound 0, Call.playRound 4,
            Call.playRound 8]).board.count "O" + 1) :=
  ⟨by decide,
   ((reachable_turn_parity [Call.playRound 0, Call.playRound 4, Call.playRound 8]).2
      (by decide)).2⟩

/-! ## Drawn games -/

/-- C12: when 9 `playRound` calls from the initial state use each index of `0..8` once
and the final board has no combination of three non-empty identical cells, the first 8
calls return `"continue"` and the 9th returns `"tie"`. -/
theorem full_board_game_ties (indices : List Int)
    (hperm : indices.Perm [0, 1, 2, 3, 4, 5, 6, 7, 8])
    (hno : ∀ t ∈ winningCombinations, ¬ ∃ m, m ≠ "" ∧
      (playRounds initialSession indices).2.board[t.1]? = some m ∧
      (playRounds initialSession indices).2.board[t.2.1]? = some m ∧
      (playRounds initialSession indices).2.board[t.2.2]? = some m) :
    (playRounds initialSession indices).1 =
      [some "continue", some "continue", some "continue", some "continue",
       some "continue", some "continue", some "continue", some "continue",
       some "tie"] := by
  have hlen : indices.length = 9 := by rw [hperm.length_eq]; rfl
  have hnd : indices.Nodup := hperm.nodup_iff.2 (by decide)
  have hmem : ∀ i : Int, i ∈ indices ↔ i ∈ ([0, 1, 2, 3, 4, 5, 6, 7, 8] : List Int) :=
    fun i => hperm.mem_iff
  have hne : indices ≠ [] := by
    intro e
    rw [e] at hlen
    exact absurd hlen (by decide)
  have h := playRounds_fill indices initialSession rfl (by decide) (by decide) hnd
    (by
      intro i hi
      have := (hmem i).1 hi
      simp only [List.mem_cons, List.mem_singleton, List.not_mem_nil, or_false] at this
      rcases this with h | h | h | h | h | h | h | h | h <;> subst h <;> decide)
    (by
      intro j hj _
      rw [hmem]
      interval_cases j <;> decide)
    ((truthy_checkWinner_false_iff _).2 hno) hne
  rw [h, hlen]
  rfl

/-- C12, at the order `0,1,2,3,5,4,6,8,7`, which ends on the board
`X O X / O O X / X X O`. -/
theorem full_board_game_ties_witness :
    (playRounds initialSession [0, 1, 2, 3, 5, 4, 6, 8, 7]).1 =
      [some "continue", some "continue", some "continue", some "continue",
       some "continue", some "continue", some "continue", some "continue",
       some "tie"] :=
  full_board_game_ties [0, 1, 2, 3, 5, 4, 6, 8, 7] (by decide)
    ((truthy_checkWinner_false_iff _).1 (by decide))

/-! ## Snapshots and the display -/

/-- C15: `getBoard()` returns an array equal to the current board (9 cells when the board
has 9) and leaves the variable `board` and its array as they were; the array returned is
a new object, so whatever a client does to it, the board that later `getBoard()`,
`checkWinner` and `makeMove` calls read is the same. -/
theorem getBoard_returns_copy (h : BoardStore) (cells : List String)
    (hcur : currentBoard h = some cells) :
    getBoard cells = cells ∧
    (getBoardRef h).2.arrays[(getBoardRef h).1]? = some cells ∧
    (cells.length = 9 → ∀ a, (getBoardRef h).2.arrays[(getBoardRef h).1]? = some a →
      a.length = 9) ∧
    (getBoardRef h).2.board = h.board ∧
    currentBoard (getBoardRef h).2 = some cells ∧
    (getBoardRef h).1 ≠ h.board ∧
    (∀ change : List String → List String,
      currentBoard (mutateArray (getBoardRef h).2 (getBoardRef h).1 change) = some cells ∧
      (mutateArray (getBoardRef h).2 (getBoardRef h).1 change).board = h.board ∧
      (∀ b, currentBoard (mutateArray (getBoardRef h).2 (getBoardRef h).1 change) = some b →
        getBoard b = cells ∧ checkWinner b = checkWinner cells ∧
        ∀ (index : Int) (sym : String), makeMove b index sym = makeMove cells index sym)) := by
  have hlt : h.board < h.arrays.length := by
    by_contra hc
    unfold currentBoard at hcur
    rw [List.getElem?_eq_none (by omega)] at hcur
    exact Option.noConfusion hcur
  have hret : (getBoardRef h).2.arrays[(getBoardRef h).1]? = some cells := by
    simp [getBoardRef, hcur, getBoard_eq]
  have hkeep : currentBoard (getBoardRef h).2 = some cells := by
    unfold currentBoard at hcur ⊢
    simp only [getBoardRef]
    rw [List.getElem?_append_left hlt]
    exact hcur
  have hmut : ∀ change : List String → List String,
      currentBoard (mutateArray (getBoardRef h).2 (getBoardRef h).1 change) = some cells := by
    intro change
    unfold currentBoard at hkeep ⊢
    simp only [mutateArray]
    rw [List.getElem?_set_ne (by simp only [getBoardRef]; omega)]
    exact hkeep
  refine ⟨getBoard_eq cells, hret, ?_, rfl, hkeep, ?_, ?_⟩
  · intro h9 a ha
    rw [hret] at ha
    rw [← Option.some.inj ha]
    exact h9
  · simp only [getBoardRef]
    omega
  · intro change
    refine ⟨hmut change, rfl, ?_⟩
    intro b hb
    rw [hmut change] at hb
    rw [← Option.some.inj hb]
    exact ⟨getBoard_eq cells, rfl, fun _ _ => rfl⟩

/-- C15, at a store that holds only the board of a running game: the client overwrites
cell 4 of the snapshot, and the board still reads as before. -/
theorem getBoard_returns_copy_witness :
    currentBoard (mutateArray
        (getBoardRef ⟨[["X", "", "", "", "O", "", "", "", ""]], 0⟩).2
        (getBoardRef ⟨[["X", "", "", "", "O", "", "", "", ""]], 0⟩).1
        (fun snapshot => snapshot.set 4 "X"))
      = some ["X", "", "", "", "O", "", "", "", ""] :=
  ((getBoard_returns_copy ⟨[["X", "", "", "", "O", "", "", "", ""]], 0⟩
      ["X", "", "", "", "O", "", "", "", ""] rfl).2.2.2.2.2.2
    (fun snapshot => snapshot.set 4 "X")).1

/-- C18: `gameController` exposes neither `checkWinner` nor `checkTie`, and in every
session state `updateDisplay` stops with a `TypeError` at its `gameController.checkWinner()`
call instead of running to completion. -/
theorem updateDisplay_throws (s : Session) :
    "checkWinner" ∉ gameControllerExports ∧ "checkTie" ∉ gameControllerExports ∧
    updateDisplay s
      = Except.error "TypeError: gameController.checkWinner is not a function" := by
  refine ⟨by decide, by decide, ?_⟩
  have h1 : ∀ b : List String,
      callExport "getBoard" b = Except.ok b := fun b => by
    unfold callExport
    rw [if_pos (by decide)]
  have h2 : ∀ r : Option String × Session,
      callExport "playRound" r = Except.ok r := fun r => by
    unfold callExport
    rw [if_pos (by decide)]
  have h3 : ∀ w : Option String, callExport "checkWinner" w
      = Except.error "TypeError: gameController.checkWinner is not a function" := fun w => by
    unfold callExport
    rw [if_neg (by decide)]
    rfl
  unfold updateDisplay
  rw [h1, h2]
  simp only [bind, Except.bind]
  rw [h3]

end TicTacToe
